import Mathlib

/-!
Shallow embedding of the tracepath repository's cable-routing core:
`src/frontend/src/graphUtils.js` (coordinate keys, cable graph builder,
depth-first path finder) and the route-planning loop of
`src/frontend/src/App.jsx` (`animateTrace`, `animateLine`).

JavaScript numbers are modelled as exact rationals.  The transcendental
haversine distance cannot be computed over ℚ, so it is kept as an
explicit parameter `dist : Coord → Coord → ℚ`; every theorem below
either holds for all distance functions or assumes only properties the
real haversine enjoys (`dist x x = 0`, non-negativity, concrete
positivity / threshold facts).  JavaScript objects used as string-keyed
maps are modelled as association lists in insertion order, which is the
enumeration order of non-index string keys in JavaScript.
-/

namespace Tracepath

/-- A coordinate, as the `[lon, lat]` arrays of the geojson datasets. -/
abbrev Coord := ℚ × ℚ

/-- Three-digit zero padding of a natural number below 1000, as produced
by `toFixed(3)` for the fractional part. -/
def pad3 (n : ℕ) : String :=
  if n < 10 then "00" ++ toString n
  else if n < 100 then "0" ++ toString n
  else toString n

/-- Model of JavaScript `x.toFixed(3)` on an exact rational: the sign
comes from the unrounded value, and the magnitude is rounded to the
nearest multiple of 1/1000 (ties away from zero, which is unreachable
for binary doubles but fixed here for definiteness). -/
def jsToFixed3 (q : ℚ) : String :=
  let n : ℕ := (⌊|q| * 1000 + 1 / 2⌋).toNat
  (if q < 0 then "-" else "") ++ toString (n / 1000) ++ "." ++ pad3 (n % 1000)

/-- graphUtils.js line 9 and App.jsx line 261:
`coordKey = ([lon, lat]) => lon.toFixed(3) + "," + lat.toFixed(3)`. -/
def coordKey (c : Coord) : String :=
  jsToFixed3 c.1 ++ "," ++ jsToFixed3 c.2

structure Landing where
  name : String
  coord : Coord
  deriving DecidableEq, Repr

inductive CableGeometry where
  | lineString (coords : List Coord)
  | multiLineString (parts : List (List Coord))
  | other
  deriving DecidableEq, Repr

structure Cable where
  name : String
  geometry : CableGeometry
  deriving DecidableEq, Repr

structure Edge where
  «to» : String
  cableName : String
  geometry : List Coord
  deriving DecidableEq, Repr

/-- The adjacency object `graph` of graphUtils.js, in insertion order. -/
abbrev Graph := List (String × List Edge)

/-- The `coordMap` object of graphUtils.js, in insertion order. -/
abbrev CoordMap := List (String × Coord)

/-- JavaScript object property write `m[k] = v`: overwrite the binding
in place if `k` is present, otherwise append a new binding. -/
def setKey {α : Type} : List (String × α) → String → α → List (String × α)
  | [], k, v => [(k, v)]
  | (k', v') :: rest, k, v =>
      if k' = k then (k', v) :: rest else (k', v') :: setKey rest k v

/-- JavaScript object property read `m[k]`, `none` when absent. -/
def lookupKey {α : Type} : List (String × α) → String → Option α
  | [], _ => none
  | (k', v) :: rest, k => if k' = k then some v else lookupKey rest k

/-- graphUtils.js line 95: `graph[start] || []`. -/
def lookupEdges (g : Graph) (k : String) : List Edge :=
  (lookupKey g k).getD []

/-- graphUtils.js lines 68-82: ensure the key exists, then push. -/
def pushEdge (g : Graph) (k : String) (e : Edge) : Graph :=
  setKey g k (lookupEdges g k ++ [e])

structure ClosestInfo where
  key : String
  coord : Coord
  name : String
  deriving DecidableEq, Repr

/-- One `landings.features.forEach` step of `findClosestLanding`
(graphUtils.js lines 23-38).  The accumulator couples `closest` with
`minDist`; `none` stands for `closest = null, minDist = Infinity`, so in
that state the test `dist < minDist && dist < 50` reduces to `dist < 50`. -/
def closestStep (dist : Coord → Coord → ℚ) (c : Coord)
    (st : Option (ClosestInfo × ℚ)) (l : Landing) : Option (ClosestInfo × ℚ) :=
  let d := dist c l.coord
  match st with
  | none =>
      if d < 50 then some (⟨coordKey l.coord, l.coord, l.name⟩, d) else none
  | some (ci, m) =>
      if d < m ∧ d < 50 then some (⟨coordKey l.coord, l.coord, l.name⟩, d)
      else some (ci, m)

/-- graphUtils.js `findClosestLanding` (lines 19-41), with the 50 km
proximity threshold baked into the update condition. -/
def findClosestLanding (dist : Coord → Coord → ℚ) (landings : List Landing)
    (c : Coord) : Option ClosestInfo :=
  (landings.foldl (closestStep dist c) none).map (·.1)

/-- graphUtils.js lines 48-54: flatten the cable geometry; geometry
types other than (Multi)LineString leave the empty list, which the
`length < 2` guard then drops. -/
def flattenGeometry : CableGeometry → List Coord
  | .lineString cs => cs
  | .multiLineString parts => parts.flatten
  | .other => []

/-- One `cables.features.forEach` step (graphUtils.js lines 44-84). -/
def cableStep (dist : Coord → Coord → ℚ) (landings : List Landing)
    (g : Graph) (cable : Cable) : Graph :=
  match flattenGeometry cable.geometry with
  | [] => g
  | [_] => g
  | c0 :: c1 :: rest =>
      match findClosestLanding dist landings c0,
            findClosestLanding dist landings
              ((c1 :: rest).getLast (List.cons_ne_nil _ _)) with
      | some sL, some eL =>
          if sL.key ≠ eL.key then
            pushEdge
              (pushEdge g sL.key ⟨eL.key, cable.name, c0 :: c1 :: rest⟩)
              eL.key ⟨sL.key, cable.name, (c0 :: c1 :: rest).reverse⟩
          else g
      | _, _ => g

/-- graphUtils.js `buildCableGraph` (lines 3-87). -/
def buildCableGraph (dist : Coord → Coord → ℚ) (cables : List Cable)
    (landings : List Landing) : Graph × CoordMap :=
  let coordMap := landings.foldl
    (fun m l => setKey m (coordKey l.coord) l.coord) ([] : CoordMap)
  let graph := cables.foldl (cableStep dist landings) ([] : Graph)
  (graph, coordMap)

/-- Graph vertices not yet visited; termination measure for the DFS. -/
def keysLeft (g : Graph) (visited : List String) : ℕ :=
  ((g.map Prod.fst).filter (fun k => !(visited.contains k))).length

lemma mem_keys_of_lookupKey {α : Type} {m : List (String × α)} {k : String}
    {v : α} (h : lookupKey m k = some v) : k ∈ m.map Prod.fst := by
  induction m with
  | nil => simp [lookupKey] at h
  | cons p rest ih =>
      obtain ⟨k', v'⟩ := p
      by_cases hk : k' = k
      · simp [hk]
      · rw [lookupKey, if_neg hk] at h
        simp [ih h]

lemma length_filter_stronger_le (l : List String) (s : String)
    (visited : List String) :
    (l.filter (fun k => !((s :: visited).contains k))).length
      ≤ (l.filter (fun k => !(visited.contains k))).length := by
  induction l with
  | nil => simp
  | cons a l ih =>
      by_cases ha : a ∈ visited
      · have h1 : ((s :: visited).contains a) = true := by
          simp [List.contains, ha]
        have h2 : (visited.contains a) = true := by
          simp [List.contains, ha]
        simp only [List.filter_cons, h1, h2, Bool.not_true]
        exact ih
      · have h2 : (visited.contains a) = false := by
          simp [List.contains, ha]
        by_cases hs : a = s
        · have h1 : ((s :: visited).contains a) = true := by
            simp [List.contains, hs]
          simp only [List.filter_cons, h1, h2, Bool.not_true, Bool.not_false]
          exact Nat.le_succ_of_le ih
        · have h1 : ((s :: visited).contains a) = false := by
            simp [List.contains, hs, ha]
          simp only [List.filter_cons, h1, h2, Bool.not_false]
          simpa using ih

lemma length_filter_lt_of_mem {l : List String} {s : String}
    {visited : List String} (hs : s ∈ l) (hv : s ∉ visited) :
    (l.filter (fun k => !((s :: visited).contains k))).length
      < (l.filter (fun k => !(visited.contains k))).length := by
  induction l with
  | nil => simp at hs
  | cons a l ih =>
      by_cases has : a = s
      · subst has
        have h1 : ((a :: visited).contains a) = true := by
          simp [List.contains]
        have h2 : (visited.contains a) = false := by
          simp [List.contains, hv]
        simp only [List.filter_cons, h1, h2, Bool.not_true, Bool.not_false]
        exact Nat.lt_succ_of_le (length_filter_stronger_le l a visited)
      · have hs' : s ∈ l := by
          cases hs with
          | head => exact absurd rfl has
          | tail _ h => exact h
        by_cases ha : a ∈ visited
        · have h1 : ((s :: visited).contains a) = true := by
            simp [List.contains, ha]
          have h2 : (visited.contains a) = true := by
            simp [List.contains, ha]
          simp only [List.filter_cons, h1, h2, Bool.not_true]
          exact ih hs'
        · have h1 : ((s :: visited).contains a) = false := by
            simp [List.contains, has, ha]
          have h2 : (visited.contains a) = false := by
            simp [List.contains, ha]
          simp only [List.filter_cons, h1, h2, Bool.not_false]
          simpa using ih hs'

lemma keysLeft_lt {g : Graph} {s : String} {visited : List String}
    (hg : lookupEdges g s ≠ []) (hv : s ∉ visited) :
    keysLeft g (s :: visited) < keysLeft g visited := by
  have hkey : s ∈ g.map Prod.fst := by
    unfold lookupEdges at hg
    cases h : lookupKey g s with
    | none => rw [h] at hg; simp at hg
    | some v => exact mem_keys_of_lookupKey h
  exact length_filter_lt_of_mem hkey hv

mutual

/-- graphUtils.js `findCablePathDFS` (lines 89-103).  The JavaScript
mutates `visited` by adding `start` before the edge loop and hands each
recursive call a fresh copy `new Set(visited)`; here `start :: visited`
plays both roles. -/
def findCablePathDFS (g : Graph) (start target : String)
    (visited : List String) : Option (List String) :=
  if start = target then some [start]
  else if hv : start ∈ visited then none
  else
    match he : lookupEdges g start with
    | [] => none
    | e :: es => dfsLoop g target (start :: visited) start (e :: es)
termination_by (keysLeft g visited, 0, 0)
decreasing_by
  have hlt : keysLeft g (start :: visited) < keysLeft g visited :=
    keysLeft_lt (by rw [he]; simp) hv
  exact Prod.Lex.left _ _ hlt

/-- The `for (const edge of graph[start] || [])` loop body of
`findCablePathDFS`: first successful recursive call wins and gets
`start` prepended, edges are tried in stored order. -/
def dfsLoop (g : Graph) (target : String) (visited : List String)
    (start : String) (edges : List Edge) : Option (List String) :=
  match edges with
  | [] => none
  | e :: es =>
      if e.«to» ∈ visited then dfsLoop g target visited start es
      else
        match findCablePathDFS g e.«to» target visited with
        | some p => some (start :: p)
        | none => dfsLoop g target visited start es
termination_by (keysLeft g visited, 1, edges.length)
decreasing_by
  · exact Prod.Lex.right _ (Prod.Lex.right _ (Nat.lt_succ_self _))
  · exact Prod.Lex.right _ (Prod.Lex.left _ _ Nat.zero_lt_one)
  · exact Prod.Lex.right _ (Prod.Lex.right _ (Nat.lt_succ_self _))

end

/-- One traceroute hop as the planner sees it (App.jsx / backend
`hopData`): the geolocation fields may be absent.  Fields irrelevant to
routing (ip, city, country, org, index) are omitted. -/
structure Hop where
  lat : Option ℚ
  lon : Option ℚ
  deriving DecidableEq, Repr

/-- JavaScript truthiness of an optional numeric field, as in the
guards `!a.lat || !a.lon || ...` and `a.lat && a.lon && ...` of
App.jsx: absent and zero are both falsy. -/
def truthy : Option ℚ → Bool
  | none => false
  | some q => decide (q ≠ 0)

/-- The `[h.lon, h.lat]` array built by App.jsx from a hop. -/
def hopCoord (h : Hop) : Coord := (h.lon.getD 0, h.lat.getD 0)

/-- One drawable line: the layer id and the coordinates handed to the
map surface by `animateLine`. -/
structure Seg where
  id : String
  coords : List Coord
  deriving DecidableEq, Repr

/-- App.jsx `animateLine` (lines 183-223) as seen by the drawing
surface: one drawable line is produced unless fewer than two
coordinates were supplied (`if (!coords || coords.length < 2) return`). -/
def animateLine (coords : List Coord) (id : String) : List Seg :=
  if coords.length < 2 then [] else [⟨id, coords⟩]

/-- App.jsx lines 309-318: one drawable per consecutive path edge, via
the first stored edge with the right target (`graph[from]?.find`). -/
def cableSegs (g : Graph) (i : ℕ) : List String → ℕ → List Seg
  | u :: v :: rest, j =>
      (match (lookupEdges g u).find? (fun e => e.«to» == v) with
       | some e =>
           animateLine e.geometry ("cable-" ++ toString i ++ "-" ++ toString j)
       | none => []) ++ cableSegs g i (v :: rest) (j + 1)
  | _, _ => []

/-- App.jsx `getClosestCoordKey` loop step (lines 266-273): no
proximity threshold, strict improvement only, `none` standing for
`closest = null, minDist = Infinity`. -/
def closestKeyStep (dist : Coord → Coord → ℚ) (p : Coord)
    (st : Option (String × ℚ)) (entry : String × Coord) : Option (String × ℚ) :=
  let d := dist p entry.2
  match st with
  | none => some (entry.1, d)
  | some (k, m) => if d < m then some (entry.1, d) else some (k, m)

/-- App.jsx `getClosestCoordKey` (lines 263-275). -/
def getClosestCoordKey (dist : Coord → Coord → ℚ) (m : CoordMap)
    (p : Coord) : Option (String × ℚ) :=
  m.foldl (closestKeyStep dist p) none

/-- One iteration of the main hop-pair loop of App.jsx `animateTrace`
(lines 277-327), restricted to the drawables it emits; `flyTo`, timers
and the debug log are surface/diagnostic effects outside the routing
contract. -/
def pairStep (dist : Coord → Coord → ℚ) (graph : Graph)
    (coordMap : CoordMap) (i : ℕ) (a b : Hop) : List Seg :=
  if truthy a.lat && truthy a.lon && truthy b.lat && truthy b.lon then
    let aC := hopCoord a
    let bC := hopCoord b
    match getClosestCoordKey dist coordMap aC,
          getClosestCoordKey dist coordMap bC with
    | some (kA, _), some (kB, _) =>
        match lookupKey coordMap kA, lookupKey coordMap kB with
        | some coordA, some coordB =>
            animateLine [aC, coordA] ("to-" ++ toString i)
              ++ (match findCablePathDFS graph kA kB [] with
                  | some path =>
                      if path.length > 1 then cableSegs graph i path 0
                      else animateLine [coordA, coordB]
                        ("fallback-sea-" ++ toString i)
                  | none =>
                      animateLine [coordA, coordB]
                        ("fallback-sea-" ++ toString i))
              ++ animateLine [coordB, bC] ("from-" ++ toString i)
        | _, _ => animateLine [aC, bC] ("fallback-" ++ toString i)
    | _, _ => animateLine [aC, bC] ("fallback-" ++ toString i)
  else []

/-- App.jsx lines 245-252: one iteration of the global direct-line
fallback loop used when either dataset is empty. -/
def fallbackStep (i : ℕ) (a b : Hop) : List Seg :=
  if truthy a.lat && truthy a.lon && truthy b.lat && truthy b.lon then
    animateLine [hopCoord a, hopCoord b] ("direct-" ++ toString i)
  else []

/-- The `for (let i = 0; i < hops.length - 1; i++)` loops of
`animateTrace`, acting on consecutive hop pairs. -/
def pairsLoop (step : ℕ → Hop → Hop → List Seg) : ℕ → List Hop → List Seg
  | i, a :: b :: rest => step i a b ++ pairsLoop step (i + 1) (b :: rest)
  | _, _ => []

/-- The routing core of App.jsx `animateTrace` (lines 225-335): the
ordered list of drawables handed to the animation driver.  A dataset
that fails to load is delivered as `{ features: [] }` by the catch
handlers, so "failed to load" and "empty" coincide here. -/
def planRoute (dist : Coord → Coord → ℚ) (cables : List Cable)
    (landings : List Landing) (hops : List Hop) : List Seg :=
  if hops.length < 2 then []
  else if cables.length = 0 ∨ landings.length = 0 then
    pairsLoop fallbackStep 0 hops
  else
    let gm := buildCableGraph dist cables landings
    pairsLoop (pairStep dist gm.1 gm.2) 0 hops

/-! ### Association-list and graph-construction lemmas -/

lemma lookupKey_setKey {α : Type} (m : List (String × α)) (k k2 : String) (v : α) :
    lookupKey (setKey m k v) k2 = if k2 = k then some v else lookupKey m k2 := by
  induction m with
  | nil =>
      by_cases h : k2 = k
      · simp [setKey, lookupKey, h]
      · simp [setKey, lookupKey, h, Ne.symm h]
  | cons p rest ih =>
      obtain ⟨k', v'⟩ := p
      by_cases h1 : k' = k
      · subst h1
        by_cases h2 : k2 = k'
        · simp [setKey, lookupKey, h2]
        · simp [setKey, lookupKey, h2, Ne.symm h2]
      · by_cases h2 : k' = k2
        · subst h2
          simp [setKey, lookupKey, h1, Ne.symm h1]
        · simp [setKey, lookupKey, h1, h2, ih]

lemma lookupEdges_pushEdge (g : Graph) (k k2 : String) (e : Edge) :
    lookupEdges (pushEdge g k e) k2
      = if k2 = k then lookupEdges g k ++ [e] else lookupEdges g k2 := by
  unfold pushEdge lookupEdges
  rw [lookupKey_setKey]
  by_cases h : k2 = k <;> simp [h, lookupEdges]

lemma lookupEdges_pushEdge2 (g : Graph) {kS kE : String} (hne : kS ≠ kE)
    (f b : Edge) (k2 : String) :
    lookupEdges (pushEdge (pushEdge g kS f) kE b) k2
      = if k2 = kE then lookupEdges g kE ++ [b]
        else if k2 = kS then lookupEdges g kS ++ [f]
        else lookupEdges g k2 := by
  rw [lookupEdges_pushEdge]
  by_cases h1 : k2 = kE
  · rw [if_pos h1, if_pos h1, lookupEdges_pushEdge,
      if_neg (fun h : kE = kS => hne h.symm)]
  · rw [if_neg h1, if_neg h1, lookupEdges_pushEdge]

lemma mem_lookupEdges_pushEdge2 {g : Graph} {kS kE : String} (hne : kS ≠ kE)
    (f b : Edge) {k2 : String} {x : Edge} (hx : x ∈ lookupEdges g k2) :
    x ∈ lookupEdges (pushEdge (pushEdge g kS f) kE b) k2 := by
  rw [lookupEdges_pushEdge2 g hne]
  by_cases h1 : k2 = kE
  · rw [if_pos h1]; exact List.mem_append_left _ (h1 ▸ hx)
  · rw [if_neg h1]
    by_cases h2 : k2 = kS
    · rw [if_pos h2]; exact List.mem_append_left _ (h2 ▸ hx)
    · rw [if_neg h2]; exact hx

/-- Auxiliary symmetry invariant for the cable-graph fold. -/
def EdgeSym (g : Graph) : Prop :=
  ∀ k e, e ∈ lookupEdges g k →
    ∃ e', e' ∈ lookupEdges g e.«to» ∧ e'.«to» = k ∧
      e'.cableName = e.cableName ∧ e'.geometry = e.geometry.reverse

lemma edgeSym_pushEdge2 {g : Graph} (hg : EdgeSym g) {kS kE : String}
    (hne : kS ≠ kE) (name : String) (G : List Coord) :
    EdgeSym (pushEdge (pushEdge g kS ⟨kE, name, G⟩) kE ⟨kS, name, G.reverse⟩) := by
  intro k e he
  rw [lookupEdges_pushEdge2 g hne] at he
  by_cases h1 : k = kE
  · rw [if_pos h1] at he
    rcases List.mem_append.1 he with he' | he'
    · rcases hg kE e (h1 ▸ he') with ⟨e', h1', h2', h3', h4'⟩
      exact ⟨e', mem_lookupEdges_pushEdge2 hne _ _ h1', by rw [h2', h1], h3', h4'⟩
    · have hb : e = ⟨kS, name, G.reverse⟩ := by simpa using he'
      subst hb
      refine ⟨⟨kE, name, G⟩, ?_, by rw [h1], rfl, by simp⟩
      rw [lookupEdges_pushEdge2 g hne, if_neg hne, if_pos rfl]
      exact List.mem_append_right _ (List.mem_singleton.2 rfl)
  · rw [if_neg h1] at he
    by_cases h2 : k = kS
    · rw [if_pos h2] at he
      rcases List.mem_append.1 he with he' | he'
      · rcases hg kS e (h2 ▸ he') with ⟨e', h1', h2', h3', h4'⟩
        exact ⟨e', mem_lookupEdges_pushEdge2 hne _ _ h1', by rw [h2', h2], h3', h4'⟩
      · have hf : e = ⟨kE, name, G⟩ := by simpa using he'
        subst hf
        refine ⟨⟨kS, name, G.reverse⟩, ?_, by rw [h2], rfl, rfl⟩
        rw [lookupEdges_pushEdge2 g hne, if_pos rfl]
        exact List.mem_append_right _ (List.mem_singleton.2 rfl)
    · rw [if_neg h2] at he
      rcases hg k e he with ⟨e', h1', h2', h3', h4'⟩
      exact ⟨e', mem_lookupEdges_pushEdge2 hne _ _ h1', h2', h3', h4'⟩

lemma edgeSym_cableStep (dist : Coord → Coord → ℚ) (landings : List Landing)
    {g : Graph} (hg : EdgeSym g) (cable : Cable) :
    EdgeSym (cableStep dist landings g cable) := by
  unfold cableStep
  split
  · exact hg
  · exact hg
  · split
    · split
      · next hne => exact edgeSym_pushEdge2 hg hne _ _
      · exact hg
    · exact hg

lemma edgeSym_foldl (dist : Coord → Coord → ℚ) (landings : List Landing) :
    ∀ (cables : List Cable) (g : Graph), EdgeSym g →
      EdgeSym (cables.foldl (cableStep dist landings) g) := by
  intro cables
  induction cables with
  | nil => intro g hg; exact hg
  | cons c cs ih => intro g hg; exact ih _ (edgeSym_cableStep dist landings hg c)


lemma edgeSym_buildCableGraph (dist : Coord → Coord → ℚ)
    (cables : List Cable) (landings : List Landing) :
    EdgeSym (buildCableGraph dist cables landings).1 := by
  apply edgeSym_foldl
  intro k e he
  simp [lookupEdges, lookupKey] at he

/-! ### Shared concrete instances used by witnesses -/

/-- A computable stand-in distance function used to instantiate the
abstract `dist` parameter in witnesses: zero on the diagonal, 100 km
otherwise (like the haversine it vanishes on equal points and is
non-negative; 100 keeps distinct demo points beyond the 50 km
threshold). -/
def demoDist : Coord → Coord → ℚ := fun a b => if a = b then 0 else 100

def demoLandings : List Landing := [⟨"Alpha", (10, 20)⟩, ⟨"Beta", (60, 25)⟩]

def demoCables : List Cable := [⟨"DemoCable", .lineString [(10, 20), (60, 25)]⟩]

/-! ### Concrete evaluation lemmas -/

lemma jsToFixed3_of_nonneg (q : ℚ) (n : ℕ) (h0 : ¬ q < 0)
    (hn : ⌊|q| * 1000 + 1 / 2⌋ = (n : ℤ)) :
    jsToFixed3 q = toString (n / 1000) ++ "." ++ pad3 (n % 1000) := by
  simp only [jsToFixed3, hn, if_neg h0, Int.toNat_natCast]
  simp

lemma jsToFixed3_of_neg (q : ℚ) (n : ℕ) (h0 : q < 0)
    (hn : ⌊|q| * 1000 + 1 / 2⌋ = (n : ℤ)) :
    jsToFixed3 q = "-" ++ toString (n / 1000) ++ "." ++ pad3 (n % 1000) := by
  simp only [jsToFixed3, hn, if_pos h0, Int.toNat_natCast]

lemma coordKey_demo1 : coordKey (10, 20) = "10.000,20.000" := by
  unfold coordKey
  rw [show ((10 : ℚ), (20 : ℚ)).1 = 10 from rfl, show ((10 : ℚ), (20 : ℚ)).2 = 20 from rfl,
    jsToFixed3_of_nonneg (10 : ℚ) 10000 (by norm_num) (by norm_num),
    jsToFixed3_of_nonneg (20 : ℚ) 20000 (by norm_num) (by norm_num)]
  decide

lemma coordKey_demo2 : coordKey (60, 25) = "60.000,25.000" := by
  unfold coordKey
  rw [show ((60 : ℚ), (25 : ℚ)).1 = 60 from rfl, show ((60 : ℚ), (25 : ℚ)).2 = 25 from rfl,
    jsToFixed3_of_nonneg (60 : ℚ) 60000 (by norm_num) (by norm_num),
    jsToFixed3_of_nonneg (25 : ℚ) 25000 (by norm_num) (by norm_num)]
  decide

lemma buildCableGraph_demo :
    buildCableGraph demoDist demoCables demoLandings =
      ([("10.000,20.000", [⟨"60.000,25.000", "DemoCable", [(10, 20), (60, 25)]⟩]),
        ("60.000,25.000", [⟨"10.000,20.000", "DemoCable", [(60, 25), (10, 20)]⟩])],
       [("10.000,20.000", (10, 20)), ("60.000,25.000", (60, 25))]) := by
  norm_num [buildCableGraph, demoCables, demoLandings, cableStep, flattenGeometry,
    findClosestLanding, closestStep, demoDist, coordKey_demo1, coordKey_demo2,
    setKey, lookupKey, pushEdge, lookupEdges]
  decide

/-! ### Claim C3: graph symmetry -/

/-- C3: for every cables/landings input (and any distance function), the
graph built by `buildCableGraph` is symmetric: whenever it contains an
edge stored under key `k` with target `e.to` and geometry `e.geometry`,
contributed by some cable, it also contains an edge stored under `e.to`
pointing back at `k`, for the same cable name, whose geometry is the
reverse of `e.geometry`. -/
theorem buildCableGraph_symmetric (dist : Coord → Coord → ℚ)
    (cables : List Cable) (landings : List Landing) (k : String) (e : Edge)
    (he : e ∈ lookupEdges (buildCableGraph dist cables landings).1 k) :
    ∃ e', e' ∈ lookupEdges (buildCableGraph dist cables landings).1 e.«to» ∧
      e'.«to» = k ∧ e'.cableName = e.cableName ∧
      e'.geometry = e.geometry.reverse :=
  edgeSym_buildCableGraph dist cables landings k e he

/-- Witness for `buildCableGraph_symmetric`: the concrete demo dataset,
at the forward edge of its single cable. -/
theorem buildCableGraph_symmetric_witness :
    ∃ e', e' ∈ lookupEdges
        (buildCableGraph demoDist demoCables demoLandings).1 "60.000,25.000" ∧
      e'.«to» = "10.000,20.000" ∧ e'.cableName = "DemoCable" ∧
      e'.geometry = [((10 : ℚ), (20 : ℚ)), (60, 25)].reverse :=
  buildCableGraph_symmetric demoDist demoCables demoLandings "10.000,20.000"
    ⟨"60.000,25.000", "DemoCable", [(10, 20), (60, 25)]⟩
    (by rw [show (buildCableGraph demoDist demoCables demoLandings).1
          = (buildCableGraph demoDist demoCables demoLandings).1 from rfl,
        buildCableGraph_demo]
        decide)

/-! ### Claim C4: no isolated graph keys -/

lemma mem_setKey {α : Type} {m : List (String × α)} {k : String} {v : α} :
    ∀ kv ∈ setKey m k v, kv ∈ m ∨ kv = (k, v) := by
  induction m with
  | nil => intro kv hkv; simp [setKey] at hkv; right; exact hkv
  | cons p rest ih =>
      obtain ⟨k', v'⟩ := p
      intro kv hkv
      by_cases h1 : k' = k
      · rw [setKey, if_pos h1] at hkv
        rcases List.mem_cons.1 hkv with h | h
        · right; rw [h, h1]
        · left; exact List.mem_cons_of_mem _ h
      · rw [setKey, if_neg h1] at hkv
        rcases List.mem_cons.1 hkv with h | h
        · left; rw [h]; exact List.mem_cons_self _ _
        · rcases ih kv h with h' | h'
          · left; exact List.mem_cons_of_mem _ h'
          · right; exact h'

lemma mem_pushEdge {g : Graph} {k : String} {e : Edge} :
    ∀ kv ∈ pushEdge g k e, kv ∈ g ∨ kv = (k, lookupEdges g k ++ [e]) :=
  mem_setKey

/-- A closest-landing result always carries the key of some landing in
the candidate list. -/
lemma findClosestLanding_key {dist : Coord → Coord → ℚ} {c : Coord} :
    ∀ {landings : List Landing} {st : Option (ClosestInfo × ℚ)}
      {ci : ClosestInfo} {m : ℚ},
      landings.foldl (closestStep dist c) st = some (ci, m) →
      st = some (ci, m) ∨ ∃ l ∈ landings, ci.key = coordKey l.coord := by
  intro landings
  induction landings with
  | nil => intro st ci m h; left; exact h
  | cons a ls ih =>
      intro st ci m h
      rw [List.foldl_cons] at h
      rcases ih h with h' | h'
      · unfold closestStep at h'
        cases st with
        | none =>
            simp only [] at h'
            by_cases hd : dist c a.coord < 50
            · rw [if_pos hd] at h'
              right
              refine ⟨a, List.mem_cons_self _ _, ?_⟩
              cases h'
              rfl
            · rw [if_neg hd] at h'
              exact absurd h' (by simp)
        | some p =>
            obtain ⟨ci0, m0⟩ := p
            simp only [] at h'
            by_cases hd : dist c a.coord < m0 ∧ dist c a.coord < 50
            · rw [if_pos hd] at h'
              right
              refine ⟨a, List.mem_cons_self _ _, ?_⟩
              cases h'
              rfl
            · rw [if_neg hd] at h'
              left
              exact h'
      · right
        obtain ⟨l, hl, hk⟩ := h'
        exact ⟨l, List.mem_cons_of_mem _ hl, hk⟩

/-- Claim C4's resolution predicate: some endpoint of the (flattened,
length ≥ 2) cable geometry resolves, through the thresholded
closest-landing search, to the key `k`. -/
def ResolvesTo (dist : Coord → Coord → ℚ) (landings : List Landing)
    (cable : Cable) (k : String) : Prop :=
  ∃ c0 c1 rest, flattenGeometry cable.geometry = c0 :: c1 :: rest ∧
    ((∃ ci, findClosestLanding dist landings c0 = some ci ∧ ci.key = k) ∨
     (∃ ci, findClosestLanding dist landings
        ((c1 :: rest).getLast (List.cons_ne_nil _ _)) = some ci ∧ ci.key = k))

lemma cableStep_mem (dist : Coord → Coord → ℚ) (landings : List Landing)
    (g : Graph) (cable : Cable) :
    ∀ kv ∈ cableStep dist landings g cable,
      (kv.2 ≠ [] ∧ ResolvesTo dist landings cable kv.1) ∨ kv ∈ g := by
  intro kv hkv
  unfold cableStep at hkv
  split at hkv
  · right; exact hkv
  · right; exact hkv
  · rename_i c0 c1 rest heq
    split at hkv
    · rename_i sL eL hS hE
      split at hkv
      · rename_i hne
        rcases mem_pushEdge kv hkv with h | h
        · rcases mem_pushEdge kv h with h' | h'
          · right; exact h'
          · left
            rw [h']
            exact ⟨by simp, c0, c1, rest, heq, Or.inl ⟨sL, hS, rfl⟩⟩
        · left
          rw [h]
          exact ⟨by simp, c0, c1, rest, heq, Or.inr ⟨eL, hE, rfl⟩⟩
      · right; exact hkv
    · right; exact hkv

lemma foldl_cableStep_mem (dist : Coord → Coord → ℚ) (landings : List Landing) :
    ∀ (cables : List Cable) (g : Graph) (kv : String × List Edge),
      kv ∈ cables.foldl (cableStep dist landings) g →
      (kv.2 ≠ [] ∧ ∃ cable ∈ cables, ResolvesTo dist landings cable kv.1)
        ∨ kv ∈ g := by
  intro cables
  induction cables with
  | nil => intro g kv h; right; exact h
  | cons c cs ih =>
      intro g kv h
      rw [List.foldl_cons] at h
      rcases ih _ kv h with ⟨hne, cable, hc, hr⟩ | h'
      · exact Or.inl ⟨hne, cable, List.mem_cons_of_mem _ hc, hr⟩
      · rcases cableStep_mem dist landings g c kv h' with ⟨hne, hr⟩ | h''
        · exact Or.inl ⟨hne, c, List.mem_cons_self _ _, hr⟩
        · right; exact h''


/-- C4: for every cables/landings input (and any distance function),
every vertex key present in the built graph has a non-empty edge list,
arose from a cable endpoint that resolved to it through the thresholded
nearest-landing search, and is the coordinate key of some landing; a
landing to which no cable endpoint resolves therefore never appears as
a graph key. -/
theorem buildCableGraph_no_isolated_keys (dist : Coord → Coord → ℚ)
    (cables : List Cable) (landings : List Landing) (kv : String × List Edge)
    (hkv : kv ∈ (buildCableGraph dist cables landings).1) :
    kv.2 ≠ [] ∧ (∃ cable ∈ cables, ResolvesTo dist landings cable kv.1) ∧
      ∃ l ∈ landings, coordKey l.coord = kv.1 := by
  rcases foldl_cableStep_mem dist landings cables [] kv hkv with
    ⟨hne, cable, hc, hr⟩ | h
  · refine ⟨hne, ⟨cable, hc, hr⟩, ?_⟩
    obtain ⟨c0, c1, rest, hg, hres⟩ := hr
    rcases hres with ⟨ci, hci, hk⟩ | ⟨ci, hci, hk⟩
    all_goals {
      unfold findClosestLanding at hci
      rcases Option.map_eq_some'.1 hci with ⟨⟨ci', m⟩, hfold, hci'⟩
      rcases findClosestLanding_key hfold with h' | ⟨l, hl, hkey⟩
      · simp at h'
      · have hcc : ci' = ci := hci'
        exact ⟨l, hl, by rw [← hk, ← hcc, hkey]⟩
    }
  · simp at h

/-- Witness for `buildCableGraph_no_isolated_keys` at the demo data. -/
theorem buildCableGraph_no_isolated_keys_witness :
    (("10.000,20.000",
        [(⟨"60.000,25.000", "DemoCable", [(10, 20), (60, 25)]⟩ : Edge)]).2
      ≠ ([] : List Edge)) ∧
    (∃ cable ∈ demoCables, ResolvesTo demoDist demoLandings cable
        ("10.000,20.000",
          [(⟨"60.000,25.000", "DemoCable", [(10, 20), (60, 25)]⟩ : Edge)]).1) ∧
    ∃ l ∈ demoLandings, coordKey l.coord =
        ("10.000,20.000",
          [(⟨"60.000,25.000", "DemoCable", [(10, 20), (60, 25)]⟩ : Edge)]).1 :=
  buildCableGraph_no_isolated_keys demoDist demoCables demoLandings _
    (by rw [show (buildCableGraph demoDist demoCables demoLandings).1
          = (buildCableGraph demoDist demoCables demoLandings).1 from rfl,
        buildCableGraph_demo]
        decide)

/-! ### Claim C7: coordinate-key rounding -/

lemma sign_string_congr {x y : ℚ} (h : x < 0 ↔ y < 0) :
    (if x < 0 then "-" else "") = (if y < 0 then "-" else "") := by
  by_cases hx : x < 0
  · rw [if_pos hx, if_pos (h.1 hx)]
  · rw [if_neg hx, if_neg (fun hy => hx (h.2 hy))]

/-- C7 (amended): two coordinates whose longitude components and
latitude components agree both in sign (negativity of the unrounded
value, which toFixed(3) prints) and in rounded magnitude at three
decimal places receive the same key. -/
theorem coordKey_rounding_amended (a b : Coord)
    (hlon_s : a.1 < 0 ↔ b.1 < 0)
    (hlon : ⌊|a.1| * 1000 + 1 / 2⌋ = ⌊|b.1| * 1000 + 1 / 2⌋)
    (hlat_s : a.2 < 0 ↔ b.2 < 0)
    (hlat : ⌊|a.2| * 1000 + 1 / 2⌋ = ⌊|b.2| * 1000 + 1 / 2⌋) :
    coordKey a = coordKey b := by
  simp only [coordKey, jsToFixed3]
  rw [hlon, hlat, sign_string_congr hlon_s, sign_string_congr hlat_s]

/-- Witness for `coordKey_rounding_amended`: the spec's own instance,
(10.0001, 20.0001) and (10.00013, 20.00009). -/
theorem coordKey_rounding_amended_witness :
    coordKey (10.0001, 20.0001) = coordKey (10.00013, 20.00009) :=
  coordKey_rounding_amended (10.0001, 20.0001) (10.00013, 20.00009)
    (by norm_num)
    (by rw [show ((10.0001 : ℚ), (20.0001 : ℚ)).1 = 10.0001 from rfl,
          show ((10.00013 : ℚ), (20.00009 : ℚ)).1 = 10.00013 from rfl,
          abs_of_nonneg (by norm_num : (0:ℚ) ≤ 10.0001),
          abs_of_nonneg (by norm_num : (0:ℚ) ≤ 10.00013)]
        norm_num)
    (by norm_num)
    (by rw [show ((10.0001 : ℚ), (20.0001 : ℚ)).2 = 20.0001 from rfl,
          show ((10.00013 : ℚ), (20.00009 : ℚ)).2 = 20.00009 from rfl,
          abs_of_nonneg (by norm_num : (0:ℚ) ≤ 20.0001),
          abs_of_nonneg (by norm_num : (0:ℚ) ≤ 20.00009)]
        norm_num)

/-- C7 counterexample: the longitudes -1/10000 and 1/10000 both round
to the same value (0) at three decimal places and the latitudes are
equal, yet `coordKey` produces different keys, because JavaScript
`toFixed(3)` prints a sign taken from the unrounded value: the keys are
"-0.000,20.000" and "0.000,20.000". -/
theorem coordKey_sign_counterexample :
    round ((-1 / 10000 : ℚ) * 1000) = round ((1 / 10000 : ℚ) * 1000) ∧
    coordKey (-1 / 10000, 20) ≠ coordKey (1 / 10000, 20) := by
  constructor
  · norm_num [round_eq]
  · have h1 : coordKey (-1 / 10000, 20) = "-0.000,20.000" := by
      unfold coordKey
      rw [show ((-1 / 10000 : ℚ), (20 : ℚ)).1 = -1 / 10000 from rfl,
        show ((-1 / 10000 : ℚ), (20 : ℚ)).2 = 20 from rfl,
        jsToFixed3_of_neg (-1 / 10000 : ℚ) 0 (by norm_num)
          (by rw [abs_of_nonpos (by norm_num)]; norm_num),
        jsToFixed3_of_nonneg (20 : ℚ) 20000 (by norm_num)
          (by rw [abs_of_nonneg (by norm_num)]; norm_num)]
      decide
    have h2 : coordKey (1 / 10000, 20) = "0.000,20.000" := by
      unfold coordKey
      rw [show ((1 / 10000 : ℚ), (20 : ℚ)).1 = 1 / 10000 from rfl,
        show ((1 / 10000 : ℚ), (20 : ℚ)).2 = 20 from rfl,
        jsToFixed3_of_nonneg (1 / 10000 : ℚ) 0 (by norm_num)
          (by rw [abs_of_nonneg (by norm_num)]; norm_num),
        jsToFixed3_of_nonneg (20 : ℚ) 20000 (by norm_num)
          (by rw [abs_of_nonneg (by norm_num)]; norm_num)]
      decide
    rw [h1, h2]
    decide

/-! ### Claims C1, C9, C10: planner pair guard and missing DFS keys -/

/-- C1 (code-bug evaluation): a consecutive hop pair whose coordinates
are all present — but with latitude 0, a point on the equator — is
skipped by the JavaScript truthiness guard `!a.lat || !a.lon || !b.lat
|| !b.lon` of the main loop, so the planner emits zero segments for it
although both datasets are available.  App.jsx line 173 tests
`typeof hop.lat === 'number'` for the same purpose, so the truthy guard
contradicts the file's own notion of a known coordinate. -/
theorem planner_drops_equator_pair :
    ((Hop.mk (some 0) (some 10)).lat.isSome ∧
     (Hop.mk (some 0) (some 10)).lon.isSome ∧
     (Hop.mk (some 20) (some 30)).lat.isSome ∧
     (Hop.mk (some 20) (some 30)).lon.isSome) ∧
    planRoute demoDist demoCables demoLandings
      [Hop.mk (some 0) (some 10), Hop.mk (some 20) (some 30)] = [] := by
  refine ⟨⟨rfl, rfl, rfl, rfl⟩, ?_⟩
  simp [planRoute, pairsLoop, pairStep, truthy, demoCables, demoLandings]

/-- C9 (code-bug evaluation): in global fallback mode (empty cable
dataset, non-empty landings) the same truthiness guard drops a pair
whose coordinates are present but include latitude 0, emitting zero
direct-line segments instead of exactly one. -/
theorem fallback_drops_equator_pair :
    ((Hop.mk (some 0) (some 10)).lat.isSome ∧
     (Hop.mk (some 0) (some 10)).lon.isSome ∧
     (Hop.mk (some 20) (some 30)).lat.isSome ∧
     (Hop.mk (some 20) (some 30)).lon.isSome) ∧
    planRoute demoDist [] demoLandings
      [Hop.mk (some 0) (some 10), Hop.mk (some 20) (some 30)] = [] := by
  refine ⟨⟨rfl, rfl, rfl, rfl⟩, ?_⟩
  simp [planRoute, pairsLoop, fallbackStep, truthy]

lemma lookupKey_eq_none {α : Type} {m : List (String × α)} {k : String}
    (h : k ∉ m.map Prod.fst) : lookupKey m k = none := by
  induction m with
  | nil => rfl
  | cons p rest ih =>
      obtain ⟨k', v'⟩ := p
      simp only [List.map_cons, List.mem_cons] at h
      push_neg at h
      rw [lookupKey, if_neg (fun hh => h.1 hh.symm), ih h.2]

/-- C10: calling `findCablePathDFS` with a start key that is not a
vertex of the graph and a distinct end key returns `none`: the lookup
`graph[start] || []` makes a missing key behave as a vertex with no
outgoing edges, so the edge loop is empty and no error is raised (the
embedding is a total function). -/
theorem findCablePathDFS_missing_start (g : Graph) (start target : String)
    (hmem : start ∉ g.map Prod.fst) (hne : start ≠ target) :
    findCablePathDFS g start target [] = none := by
  have h0 : lookupEdges g start = [] := by
    unfold lookupEdges
    rw [lookupKey_eq_none hmem]
    rfl
  rw [findCablePathDFS]
  rw [if_neg hne, dif_neg (List.not_mem_nil start)]
  split
  · rfl
  · rename_i e es he
    rw [h0] at he
    simp at he

/-- Witness for `findCablePathDFS_missing_start`: a one-vertex graph
and the absent start key "z". -/
theorem findCablePathDFS_missing_start_witness :
    findCablePathDFS [("a", [⟨"b", "Cab", []⟩])] "z" "a" [] = none :=
  findCablePathDFS_missing_start [("a", [⟨"b", "Cab", []⟩])] "z" "a"
    (by decide) (by decide)

/-! ### Claim C5: DFS correctness -/

/-- Consecutive list elements are joined by edges of the graph. -/
def chainOk (g : Graph) : List String → Prop
  | a :: b :: rest => (∃ e ∈ lookupEdges g a, e.«to» = b) ∧ chainOk g (b :: rest)
  | _ => True

/-- Reachability along stored graph edges. -/
inductive Reachable (g : Graph) : String → String → Prop
  | refl (a : String) : Reachable g a a
  | step {a b c : String} (hab : ∃ e ∈ lookupEdges g a, e.«to» = b)
      (hbc : Reachable g b c) : Reachable g a c

lemma dfsLoop_sound {g : Graph} {t : String} {v' : List String} {s : String} :
    ∀ (es : List Edge) (p : List String), (∀ e ∈ es, e ∈ lookupEdges g s) →
      dfsLoop g t v' s es = some p →
      ∃ u q, p = s :: q ∧ u ∉ v' ∧ (∃ e ∈ lookupEdges g s, e.«to» = u) ∧
        findCablePathDFS g u t v' = some q := by
  intro es
  induction es with
  | nil => intro p hsub h; rw [dfsLoop] at h; simp at h
  | cons e es ih =>
      intro p hsub h
      rw [dfsLoop] at h
      by_cases hv : e.«to» ∈ v'
      · rw [if_pos hv] at h
        exact ih p (fun e' he' => hsub e' (List.mem_cons_of_mem _ he')) h
      · rw [if_neg hv] at h
        cases hfind : findCablePathDFS g e.«to» t v' with
        | some q =>
            rw [hfind] at h
            refine ⟨e.«to», q, ?_, hv,
              ⟨e, hsub e (List.mem_cons_self _ _), rfl⟩, hfind⟩
            injection h with h'
            exact h'.symm
        | none =>
            rw [hfind] at h
            exact ih p (fun e' he' => hsub e' (List.mem_cons_of_mem _ he')) h

lemma dfs_sound :
    ∀ (n : ℕ) (g : Graph) (visited : List String) (s t : String)
      (p : List String), keysLeft g visited ≤ n → s ∉ visited →
      findCablePathDFS g s t visited = some p →
      p.head? = some s ∧ p.getLast? = some t ∧ chainOk g p ∧ p.Nodup ∧
        ∀ x ∈ p, x ∉ visited := by
  intro n
  induction n using Nat.strong_induction_on with
  | _ n ih =>
      intro g visited s t p hn hs h
      rw [findCablePathDFS] at h
      by_cases hst : s = t
      · rw [if_pos hst] at h
        injection h with h'
        subst h'
        refine ⟨rfl, by rw [hst]; rfl, trivial, List.nodup_singleton s, ?_⟩
        intro x hx
        rcases List.mem_singleton.1 hx with rfl
        exact hs
      · rw [if_neg hst, dif_neg hs] at h
        split at h
        · exact absurd h (by simp)
        · rename_i e es he
          obtain ⟨u, q, rfl, hu, hedge, hfind⟩ :=
            dfsLoop_sound (e :: es) p (fun e' he' => he ▸ he') h
          have hklt : keysLeft g (s :: visited) < keysLeft g visited :=
            keysLeft_lt (by rw [he]; simp) hs
          have hq := ih (keysLeft g (s :: visited)) (by omega) g
            (s :: visited) u t q le_rfl hu hfind
          obtain ⟨hq1, hq2, hq3, hq4, hq5⟩ := hq
          cases q with
          | nil => simp at hq1
          | cons u' q' =>
              have huu : u' = u := Option.some.inj hq1
              subst huu
              refine ⟨rfl, by rw [List.getLast?_cons_cons]; exact hq2,
                ⟨hedge, hq3⟩, ?_, ?_⟩
              · refine List.nodup_cons.2 ⟨?_, hq4⟩
                intro hmem
                exact (hq5 s hmem) (List.mem_cons_self _ _)
              · intro x hx
                rcases List.mem_cons.1 hx with rfl | hx'
                · exact hs
                · intro hxv
                  exact (hq5 x hx') (List.mem_cons_of_mem _ hxv)

lemma reachable_of_chain {g : Graph} :
    ∀ (p : List String) (s t : String), p.head? = some s →
      p.getLast? = some t → chainOk g p → Reachable g s t := by
  intro p
  induction p with
  | nil => intro s t h1; simp at h1
  | cons a q ih =>
      intro s t h1 h2 h3
      have has : a = s := Option.some.inj h1
      subst has
      cases q with
      | nil =>
          have hat : a = t := Option.some.inj h2
          exact hat ▸ Reachable.refl a
      | cons b q' =>
          obtain ⟨hedge, hchain⟩ := h3
          rw [List.getLast?_cons_cons] at h2
          exact Reachable.step hedge (ih b t rfl h2 hchain)

lemma chainOk_suffix {g : Graph} :
    ∀ (l1 l2 : List String), chainOk g (l1 ++ l2) → chainOk g l2 := by
  intro l1
  induction l1 with
  | nil => intro l2 h; exact h
  | cons a l1 ih =>
      intro l2 h
      apply ih
      cases hl : l1 ++ l2 with
      | nil => trivial
      | cons b rest =>
          have h' : chainOk g (a :: b :: rest) := by
            rw [← hl]
            exact h
          exact h'.2

lemma exists_nodup_chain_of_reachable {g : Graph} {s t : String}
    (h : Reachable g s t) :
    ∃ p, p.head? = some s ∧ p.getLast? = some t ∧ chainOk g p ∧ p.Nodup := by
  induction h with
  | refl a => exact ⟨[a], rfl, rfl, trivial, List.nodup_singleton a⟩
  | @step a b c hab hbc ih =>
      obtain ⟨q, hq1, hq2, hq3, hq4⟩ := ih
      by_cases hmem : a ∈ q
      · obtain ⟨q1, q2, rfl⟩ := List.append_of_mem hmem
        refine ⟨a :: q2, rfl, ?_, chainOk_suffix q1 _ hq3, ?_⟩
        · rw [List.getLast?_append] at hq2
          cases hq : (a :: q2).getLast? with
          | none => simp at hq
          | some x =>
              rw [hq] at hq2
              simp only [Option.or_some] at hq2
              exact hq2
        · exact hq4.sublist (List.sublist_append_right q1 _)
      · cases q with
        | nil => simp at hq1
        | cons b' q' =>
            refine ⟨a :: b' :: q', rfl, ?_, ⟨?_, hq3⟩, ?_⟩
            · rw [List.getLast?_cons_cons]; exact hq2
            · rw [Option.some.inj hq1]
              exact hab
            · exact List.nodup_cons.2 ⟨hmem, hq4⟩

lemma dfsLoop_complete {g : Graph} {t : String} {v' : List String} {s : String} :
    ∀ (es : List Edge),
      (∃ e ∈ es, e.«to» ∉ v' ∧ (findCablePathDFS g e.«to» t v').isSome) →
      (dfsLoop g t v' s es).isSome := by
  intro es
  induction es with
  | nil => intro h; simp at h
  | cons e es ih =>
      intro h
      rw [dfsLoop]
      by_cases hv : e.«to» ∈ v'
      · rw [if_pos hv]
        apply ih
        obtain ⟨e', he', hnv, hsome⟩ := h
        rcases List.mem_cons.1 he' with rfl | he''
        · exact absurd hv hnv
        · exact ⟨e', he'', hnv, hsome⟩
      · rw [if_neg hv]
        cases hfind : findCablePathDFS g e.«to» t v' with
        | some q => simp
        | none =>
            apply ih
            obtain ⟨e', he', hnv, hsome⟩ := h
            rcases List.mem_cons.1 he' with rfl | he''
            · rw [hfind] at hsome; simp at hsome
            · exact ⟨e', he'', hnv, hsome⟩

lemma dfs_complete :
    ∀ (n : ℕ) (g : Graph) (visited : List String) (s t : String)
      (p : List String), keysLeft g visited ≤ n →
      p.head? = some s → p.getLast? = some t → chainOk g p → p.Nodup →
      (∀ x ∈ p, x ∉ visited) →
      (findCablePathDFS g s t visited).isSome := by
  intro n
  induction n using Nat.strong_induction_on with
  | _ n ih =>
      intro g visited s t p hn h1 h2 h3 h4 h5
      cases p with
      | nil => simp at h1
      | cons a rest =>
          have has : a = s := Option.some.inj h1
          subst has
          rw [findCablePathDFS]
          by_cases hst : a = t
          · rw [if_pos hst]; simp
          · have hsv : a ∉ visited := h5 a (List.mem_cons_self _ _)
            rw [if_neg hst, dif_neg hsv]
            cases rest with
            | nil =>
                exact absurd (Option.some.inj h2) hst
            | cons u rest' =>
                obtain ⟨⟨e0, he0, he0u⟩, hchain⟩ := h3
                have hne : lookupEdges g a ≠ [] := by
                  intro hc; rw [hc] at he0; simp at he0
                split
                · rename_i he; exact absurd he hne
                · rename_i e es he
                  apply dfsLoop_complete
                  refine ⟨e0, he ▸ he0, ?_, ?_⟩
                  · rw [he0u]
                    intro hc
                    rcases List.mem_cons.1 hc with h' | h'
                    · have : u ∈ a :: u :: rest' := by simp
                      have := List.nodup_cons.1 h4
                      exact this.1 (h' ▸ List.mem_cons_self u rest')
                    · exact (h5 u (by simp)) h'
                  · rw [he0u]
                    have hklt : keysLeft g (a :: visited) < keysLeft g visited :=
                      keysLeft_lt hne hsv
                    apply ih (keysLeft g (a :: visited)) (by omega) g
                      (a :: visited) u t (u :: rest') le_rfl rfl
                    · rw [List.getLast?_cons_cons] at h2; exact h2
                    · exact hchain
                    · exact (List.nodup_cons.1 h4).2
                    · intro x hx
                      intro hc
                      rcases List.mem_cons.1 hc with rfl | h'
                      · exact (List.nodup_cons.1 h4).1 hx
                      · exact (h5 x (List.mem_cons_of_mem _ hx)) h'

lemma not_reachable_nil {s t : String} (hne : s ≠ t) : ¬ Reachable [] s t := by
  intro h
  induction h with
  | refl a => exact hne rfl
  | step hab _ _ =>
      obtain ⟨e, he, _⟩ := hab
      simp [lookupEdges, lookupKey] at he

/-- C5: for every graph and keys: if start = end the DFS returns the
singleton path [start]; if end is unreachable from start it returns
none; and if end is reachable it returns some path from start to end in
which consecutive vertices are joined by graph edges and no vertex is
repeated. -/
theorem findCablePathDFS_correct (g : Graph) (s t : String) :
    (s = t → findCablePathDFS g s t [] = some [s]) ∧
    (¬ Reachable g s t → findCablePathDFS g s t [] = none) ∧
    (Reachable g s t → ∃ p, findCablePathDFS g s t [] = some p ∧
      p.head? = some s ∧ p.getLast? = some t ∧ chainOk g p ∧ p.Nodup) := by
  refine ⟨?_, ?_, ?_⟩
  · intro h
    subst h
    rw [findCablePathDFS, if_pos rfl]
  · intro h
    cases hres : findCablePathDFS g s t [] with
    | none => rfl
    | some p =>
        obtain ⟨h1, h2, h3, _, _⟩ := dfs_sound (keysLeft g []) g [] s t p
          le_rfl (List.not_mem_nil s) hres
        exact absurd (reachable_of_chain p s t h1 h2 h3) h
  · intro h
    obtain ⟨p0, h1, h2, h3, h4⟩ := exists_nodup_chain_of_reachable h
    have hc := dfs_complete (keysLeft g []) g [] s t p0 le_rfl h1 h2 h3 h4
      (by simp)
    obtain ⟨p, hp⟩ := Option.isSome_iff_exists.1 hc
    obtain ⟨g1, g2, g3, g4, _⟩ := dfs_sound (keysLeft g []) g [] s t p
      le_rfl (List.not_mem_nil s) hp
    exact ⟨p, hp, g1, g2, g3, g4⟩

/-- Witness for `findCablePathDFS_correct`: the three branches at
concrete graphs (trivial path on the empty graph, unreachable target on
the empty graph, reachable target on a two-vertex graph). -/
theorem findCablePathDFS_correct_witness :
    (findCablePathDFS [] "a" "a" [] = some ["a"]) ∧
    (findCablePathDFS [] "a" "b" [] = none) ∧
    (∃ p, findCablePathDFS [("a", [⟨"b", "W", []⟩]), ("b", [⟨"a", "W", []⟩])]
        "a" "b" [] = some p ∧
      p.head? = some "a" ∧ p.getLast? = some "b" ∧
      chainOk [("a", [⟨"b", "W", []⟩]), ("b", [⟨"a", "W", []⟩])] p ∧ p.Nodup) :=
  ⟨(findCablePathDFS_correct [] "a" "a").1 rfl,
   (findCablePathDFS_correct [] "a" "b").2.1 (not_reachable_nil (by decide)),
   (findCablePathDFS_correct [("a", [⟨"b", "W", []⟩]), ("b", [⟨"a", "W", []⟩])]
       "a" "b").2.2
     (Reachable.step ⟨⟨"b", "W", []⟩, by decide, rfl⟩ (Reachable.refl "b"))⟩

/-! ### Claim C6: first-found DFS semantics -/

lemma dfsLoop_eq_findSome (g : Graph) (t : String) (v' : List String)
    (s : String) :
    ∀ es : List Edge, dfsLoop g t v' s es
      = es.findSome? (fun e =>
          if e.«to» ∈ v' then none
          else (findCablePathDFS g e.«to» t v').map (s :: ·)) := by
  intro es
  induction es with
  | nil => rw [dfsLoop]; rfl
  | cons e es ih =>
      rw [dfsLoop, List.findSome?_cons]
      by_cases hv : e.«to» ∈ v'
      · rw [if_pos hv]
        have hnone : (if e.«to» ∈ v' then none
            else (findCablePathDFS g e.«to» t v').map (s :: ·)) = none :=
          if_pos hv
        rw [hnone]
        exact ih
      · rw [if_neg hv]
        have hsome : (if e.«to» ∈ v' then none
            else (findCablePathDFS g e.«to» t v').map (s :: ·))
            = (findCablePathDFS g e.«to» t v').map (s :: ·) := if_neg hv
        rw [hsome]
        cases hfind : findCablePathDFS g e.«to» t v' with
        | some p => rfl
        | none => exact ih

/-- C6: `findCablePathDFS` is first-found depth-first search.  First
conjunct: whenever the function recurses (start differs from target and
is unvisited) it equals a first-some scan of the stored outgoing edges
of start, in order, where every sibling branch receives the same
re-copied visited set `start :: visited` and the first successful child
path is returned with start prepended.  Second conjunct: on a concrete
graph whose first edge leads into a detour while a direct edge to the
target is stored second, the search returns the 3-vertex detour even
though a valid 2-vertex path exists — first-found by edge order, not
shortest. -/
theorem findCablePathDFS_first_found :
    (∀ (g : Graph) (s t : String) (visited : List String),
      s ≠ t → s ∉ visited →
      findCablePathDFS g s t visited
        = (lookupEdges g s).findSome? (fun e =>
            if e.«to» ∈ s :: visited then none
            else (findCablePathDFS g e.«to» t (s :: visited)).map (s :: ·))) ∧
    (findCablePathDFS
        [("a", [⟨"b", "E1", []⟩, ⟨"c", "E2", []⟩]), ("b", [⟨"c", "E3", []⟩])]
        "a" "c" [] = some ["a", "b", "c"] ∧
      chainOk
        [("a", [⟨"b", "E1", []⟩, ⟨"c", "E2", []⟩]), ("b", [⟨"c", "E3", []⟩])]
        ["a", "c"] ∧
      (["a", "c"] : List String).length
        < (["a", "b", "c"] : List String).length) := by
  constructor
  · intro g s t visited hst hv
    rw [findCablePathDFS, if_neg hst, dif_neg hv]
    split
    · rename_i he
      rw [he]
      rfl
    · rename_i e es he
      rw [dfsLoop_eq_findSome, he]
  · refine ⟨?_, ⟨⟨⟨"c", "E2", []⟩, ?_, rfl⟩, trivial⟩, by decide⟩
    · simp [findCablePathDFS, dfsLoop, lookupEdges, lookupKey]
    · simp [lookupEdges, lookupKey]

/-- Witness for `findCablePathDFS_first_found`: the recurrence
instantiated at the concrete non-shortest demo graph. -/
theorem findCablePathDFS_first_found_witness :
    findCablePathDFS
        [("a", [⟨"b", "E1", []⟩, ⟨"c", "E2", []⟩]), ("b", [⟨"c", "E3", []⟩])]
        "a" "c" []
      = (lookupEdges
          [("a", [⟨"b", "E1", []⟩, ⟨"c", "E2", []⟩]), ("b", [⟨"c", "E3", []⟩])]
          "a").findSome? (fun e =>
            if e.«to» ∈ "a" :: ([] : List String) then none
            else (findCablePathDFS
                [("a", [⟨"b", "E1", []⟩, ⟨"c", "E2", []⟩]),
                 ("b", [⟨"c", "E3", []⟩])]
                e.«to» "c" ("a" :: [])).map ("a" :: ·)) :=
  findCablePathDFS_first_found.1
    [("a", [⟨"b", "E1", []⟩, ⟨"c", "E2", []⟩]), ("b", [⟨"c", "E3", []⟩])]
    "a" "c" [] (by decide) (by decide)

/-! ### Claim C8: two-landing routing scenario -/

/-- C8: in the two-landing scenario — two landings joined by one cable
whose flattened endpoints are exactly the landing coordinates, and a
hop pair located exactly at the two landings — the planner emits
exactly three segments in order: hopA to landing A, landing A to
landing B along the cable's stored geometry, and landing B to hopB; and
the path finder between the two landing keys returns the 2-element
path.  The distance function is abstract, constrained only by
properties the haversine has in this configuration: it vanishes on
equal points, is non-negative, and the two landings (5000 km apart in
the spec's scenario) are farther apart than the 50 km threshold. -/
theorem planner_two_landing_scenario (dist : Coord → Coord → ℚ)
    (hdiag : ∀ x, dist x x = 0)
    (hnn : ∀ x y, 0 ≤ dist x y)
    (h21 : 50 < dist (60, 25) (10, 20)) :
    planRoute dist demoCables demoLandings
      [⟨some 20, some 10⟩, ⟨some 25, some 60⟩]
      = [⟨"to-0", [(10, 20), (10, 20)]⟩,
         ⟨"cable-0-0", [(10, 20), (60, 25)]⟩,
         ⟨"from-0", [(60, 25), (60, 25)]⟩] ∧
    findCablePathDFS (buildCableGraph dist demoCables demoLandings).1
      "10.000,20.000" "60.000,25.000" []
      = some ["10.000,20.000", "60.000,25.000"] := by
  have d11 : dist (10, 20) (10, 20) = 0 := hdiag _
  have d22 : dist (60, 25) (60, 25) = 0 := hdiag _
  have hn12 : ¬ dist (10, 20) (60, 25) < 0 := not_lt.2 (hnn _ _)
  have hn21 : ¬ dist (60, 25) (10, 20) < 50 := not_lt.2 (le_of_lt h21)
  have hpos21 : 0 < dist (60, 25) (10, 20) := lt_trans (by norm_num) h21
  have hfc1 : findClosestLanding dist
      [⟨"Alpha", (10, 20)⟩, ⟨"Beta", (60, 25)⟩] (10, 20)
      = some ⟨"10.000,20.000", (10, 20), "Alpha"⟩ := by
    norm_num [findClosestLanding, closestStep, d11, hn12, coordKey_demo1]
  have hfc2 : findClosestLanding dist
      [⟨"Alpha", (10, 20)⟩, ⟨"Beta", (60, 25)⟩] (60, 25)
      = some ⟨"60.000,25.000", (60, 25), "Beta"⟩ := by
    norm_num [findClosestLanding, closestStep, d22, hn21, coordKey_demo2]
  have hbuild : buildCableGraph dist demoCables demoLandings
      = ([("10.000,20.000",
            [⟨"60.000,25.000", "DemoCable", [(10, 20), (60, 25)]⟩]),
          ("60.000,25.000",
            [⟨"10.000,20.000", "DemoCable", [(60, 25), (10, 20)]⟩])],
         [("10.000,20.000", (10, 20)), ("60.000,25.000", (60, 25))]) := by
    norm_num [buildCableGraph, demoCables, demoLandings, cableStep,
      flattenGeometry, hfc1, hfc2, coordKey_demo1, coordKey_demo2, setKey,
      lookupKey, pushEdge, lookupEdges]
    decide
  have hdfs : findCablePathDFS
      [("10.000,20.000",
          [⟨"60.000,25.000", "DemoCable", [(10, 20), (60, 25)]⟩]),
        ("60.000,25.000",
          [⟨"10.000,20.000", "DemoCable", [(60, 25), (10, 20)]⟩])]
      "10.000,20.000" "60.000,25.000" []
      = some ["10.000,20.000", "60.000,25.000"] := by
    simp [findCablePathDFS, dfsLoop, lookupEdges, lookupKey]
  have hgck1 : getClosestCoordKey dist
      [("10.000,20.000", ((10 : ℚ), (20 : ℚ))),
       ("60.000,25.000", ((60 : ℚ), (25 : ℚ)))] (10, 20)
      = some ("10.000,20.000", 0) := by
    norm_num [getClosestCoordKey, closestKeyStep, d11, hn12]
  have hgck2 : getClosestCoordKey dist
      [("10.000,20.000", ((10 : ℚ), (20 : ℚ))),
       ("60.000,25.000", ((60 : ℚ), (25 : ℚ)))] (60, 25)
      = some ("60.000,25.000", 0) := by
    norm_num [getClosestCoordKey, closestKeyStep, d22, hpos21]
  have hc1 : demoCables ≠ [] := by simp [demoCables]
  have hc2 : demoLandings ≠ [] := by simp [demoLandings]
  constructor
  · norm_num [planRoute, pairsLoop, pairStep, truthy, hopCoord, hc1, hc2,
      hbuild, hgck1, hgck2, hdfs, cableSegs, animateLine, lookupKey,
      lookupEdges]
    decide
  · rw [show (buildCableGraph dist demoCables demoLandings).1
        = (buildCableGraph dist demoCables demoLandings).1 from rfl, hbuild]
    exact hdfs

/-- Witness for `planner_two_landing_scenario` at the computable demo
distance. -/
theorem planner_two_landing_scenario_witness :
    planRoute demoDist demoCables demoLandings
      [⟨some 20, some 10⟩, ⟨some 25, some 60⟩]
      = [⟨"to-0", [(10, 20), (10, 20)]⟩,
         ⟨"cable-0-0", [(10, 20), (60, 25)]⟩,
         ⟨"from-0", [(60, 25), (60, 25)]⟩] ∧
    findCablePathDFS (buildCableGraph demoDist demoCables demoLandings).1
      "10.000,20.000" "60.000,25.000" []
      = some ["10.000,20.000", "60.000,25.000"] :=
  planner_two_landing_scenario demoDist
    (fun x => by simp [demoDist])
    (fun x y => by simp only [demoDist]; split <;> norm_num)
    (by decide)

end Tracepath
